import Mathlib

/-!
Shallow embedding of the SilentCoderHub blog metadata pipeline.

Sources modelled:
- generate-posts-index.js : offline indexer (extractMetadata, generatePostsIndex),
  namespace Gen below;
- the runtime loader script (parsePostHTML, loadAllPosts, discoverPosts,
  getSamplePosts and the per-field extractors), namespace Rt below.

Parsed HTML documents are modelled as records of query results: each field
holds the answer the DOM would give to the selector query the code performs
(for a meta tag, an outer Option for whether the tag matches and an inner
Option for its content attribute, since getAttribute returns null when the
attribute is absent).  JavaScript null is modelled as Option.none, a thrown
exception as Except.error.
-/

namespace Blog

/-- JS-style trim over a character list (whitespace at both ends removed). -/
def trimChars (l : List Char) : List Char :=
  ((l.dropWhile Char.isWhitespace).reverse.dropWhile Char.isWhitespace).reverse

/-- Model of String.prototype.trim (restricted to ASCII whitespace). -/
def jsTrim (s : String) : String := ⟨trimChars s.data⟩

/-- Split a character list at every occurrence of a separator character,
keeping empty segments, as JS split with a one-character separator does. -/
def splitChars (c : Char) : List Char → List (List Char)
  | [] => [[]]
  | a :: as =>
    let r := splitChars c as
    if a = c then [] :: r
    else
      match r with
      | [] => [[a]]
      | g :: gs => (a :: g) :: gs

/-- Model of s.split(c) for a one-character separator. -/
def jsSplitOn (c : Char) (s : String) : List String :=
  (splitChars c s.data).map (fun l => ⟨l⟩)

/-- Model of s.split(c)[0]: the longest prefix not containing the separator. -/
def jsTakeUntil (c : Char) (s : String) : String :=
  ⟨s.data.takeWhile (fun a => a ≠ c)⟩

/-- Model of s.substring(0, n). -/
def jsTake (n : Nat) (s : String) : String := ⟨s.data.take n⟩

/-- Character count of a string (JS .length, for strings without surrogate
pairs). -/
def strLen (s : String) : Nat := s.data.length

/-- Split a character list at maximal whitespace runs is approximated by a
split at every whitespace character; the nonempty groups are exactly the
whitespace-delimited tokens. -/
def splitWsChars : List Char → List (List Char)
  | [] => [[]]
  | a :: as =>
    let r := splitWsChars as
    if a.isWhitespace then [] :: r
    else
      match r with
      | [] => [[a]]
      | g :: gs => (a :: g) :: gs

/-- Number of whitespace-delimited tokens: models
text.split(whitespace).filter(word greater than empty).length. -/
def countTokens (s : String) : Nat :=
  ((splitWsChars s.data).filter (fun t => !t.isEmpty)).length

/-- Model of text.split(whitespace-run regex).length: token count plus one
for a leading and one for a trailing whitespace run; the empty string gives
a single empty segment. -/
def jsSplitWsCount (s : String) : Nat :=
  match s.data with
  | [] => 1
  | c :: cs =>
    ((splitWsChars s.data).filter (fun t => !t.isEmpty)).length
      + (if c.isWhitespace then 1 else 0)
      + (if ((c :: cs).getLast (by simp)).isWhitespace then 1 else 0)

/-- Ceiling division, the model of Math.ceil(a / b) on naturals. -/
def ceilDiv (a b : Nat) : Nat := (a + b - 1) / b

/-- Model of Math.round(a / b) on naturals (round half away from zero). -/
def natRound (a b : Nat) : Nat := (2 * a + b) / (2 * b)

/-- Accumulate the value of a maximal leading digit run. -/
def digitsVal : List Char → Nat → Nat
  | c :: cs, acc => if c.isDigit then digitsVal cs (acc * 10 + (c.toNat - 48)) else acc
  | [], acc => acc

/-- Model of parseInt on strings that start with digits (the read-time
strings produced by the indexer always do). -/
def parseLeadingNat (s : String) : Nat := digitsVal s.data 0

/-- Lexicographic order on character lists by code point, the order JS
default sort uses on (BMP) strings. -/
def lexLe : List Char → List Char → Bool
  | [], _ => true
  | _ :: _, [] => false
  | a :: as, b :: bs => if a = b then lexLe as bs else decide (a < b)

/-- String comparison used by the JS default array sort. -/
def jsStrLe (a b : String) : Bool := lexLe a.data b.data

/-- Leap year test of the Gregorian calendar. -/
def isLeap (y : Nat) : Bool := (y % 4 == 0 && y % 100 != 0) || y % 400 == 0

/-- Number of days of a month. -/
def daysInMonth (y m : Nat) : Nat :=
  if m = 2 then (if isLeap y then 29 else 28)
  else if m = 4 ∨ m = 6 ∨ m = 9 ∨ m = 11 then 30 else 31

/-- Numeric digit value of a character. -/
def dig (c : Char) : Nat := c.toNat - 48

/-- Model of Date.parse restricted to ISO calendar dates: a ten character
YYYY-MM-DD string with a valid month and day yields a key that orders dates
chronologically; every other string is treated as unparseable (NaN).  The
actual millisecond value is irrelevant to the program, which only compares
dates, so a monotone key stands in for it. -/
def jsDateKey (s : String) : Option Nat :=
  match s.data with
  | [y1, y2, y3, y4, h1, m1, m2, h2, d1, d2] =>
    if y1.isDigit && y2.isDigit && y3.isDigit && y4.isDigit &&
       h1 == '-' && m1.isDigit && m2.isDigit && h2 == '-' &&
       d1.isDigit && d2.isDigit then
      let y := ((dig y1 * 10 + dig y2) * 10 + dig y3) * 10 + dig y4
      let m := dig m1 * 10 + dig m2
      let d := dig d1 * 10 + dig d2
      if 1 ≤ m && m ≤ 12 && 1 ≤ d && d ≤ daysInMonth y m then
        some (y * 10000 + m * 100 + d)
      else none
    else none
  | _ => none

/-- Does the ten character YYYY-MM-DD shape start here? -/
def isYmdAt : List Char → Bool
  | y1 :: y2 :: y3 :: y4 :: h1 :: m1 :: m2 :: h2 :: d1 :: d2 :: _ =>
    y1.isDigit && y2.isDigit && y3.isDigit && y4.isDigit &&
    h1 == '-' && m1.isDigit && m2.isDigit && h2 == '-' &&
    d1.isDigit && d2.isDigit
  | _ => false

/-- Leftmost match of the date regex (four digits, hyphen, two digits,
hyphen, two digits) in a character list, as JS match finds it. -/
def findYmd : List Char → Option String
  | [] => none
  | a :: as => if isYmdAt (a :: as) then some ⟨(a :: as).take 10⟩ else findYmd as

/-- Comparator derived from an optional numeric key: when both keys exist
the later key comes first (descending); with any missing key the comparator
answers zero, which a JS sort treats as equal, leaving the pair in place. -/
def keyLe (key : α → Option Nat) (a b : α) : Bool :=
  match key a, key b with
  | some x, some y => decide (y ≤ x)
  | _, _ => true

/-- Insert an element into a sorted list, before the first element it may
precede; with a total comparator this is the insertion step of a stable
sort. -/
def sortInsert (le : α → α → Bool) (x : α) : List α → List α
  | [] => [x]
  | y :: ys => if le x y then x :: y :: ys else y :: sortInsert le x ys

/-- Stable sort by insertion; the unique stable result JS Array sort
produces for a consistent comparator. -/
def stableSort (le : α → α → Bool) : List α → List α
  | [] => []
  | x :: xs => sortInsert le x (stableSort le xs)

/-- Keep the first occurrence of every value, the iteration order of a JS
Set filled by repeated add. -/
def dedupGo [BEq α] : List α → List α → List α
  | [], _ => []
  | x :: xs, seen => if seen.contains x then dedupGo xs seen else x :: dedupGo xs (x :: seen)

/-- Distinct values of a list in first-occurrence order. -/
def dedupF [BEq α] (l : List α) : List α := dedupGo l []

/-- JS string conversion of a nullable string (String(null) is "null"),
used when null values reach a default sort or template literal. -/
def optShow (o : Option String) : String := o.getD "null"

/-- Emptiness of a string by its character list. -/
def strEmpty (s : String) : Bool := s.data.isEmpty

/-- Model of the JS or-else idiom value or default: null and the empty
string are falsy. -/
def jsOr (o : Option String) (d : String) : String :=
  match o with
  | some s => if strEmpty s then d else s
  | none => d

/-- Prefix of a character list through its first newline (the region in
which the category-stripping regex, whose dot does not cross newlines, can
place its match). -/
def takeThruNl : List Char → List Char
  | [] => []
  | c :: cs => if c = '\n' then [c] else c :: takeThruNl cs

/-- Index of the last whitespace character of a list, if any. -/
def lastWsIdx (l : List Char) : Option Nat :=
  l.foldl (fun (st : Nat × Option Nat) c =>
      (st.1 + 1, if c.isWhitespace then some st.1 else st.2)) (0, none) |>.2

/-- Model of the category icon stripping, replace of everything up to the
last whitespace reachable on the first line, followed by trim. -/
def stripCatText (s : String) : String :=
  match lastWsIdx (takeThruNl s.data) with
  | some k => jsTrim ⟨s.data.drop (k + 1)⟩
  | none => jsTrim s

namespace Gen

/-- Configured author default of the offline indexer. -/
def configAuthor : String := "SilentCoderHub"

/-- Configured words-per-minute constant. -/
def configWpm : Nat := 200

/-- Configured default category. -/
def configDefaultCategory : String := "General"

/-- Configured default tag list. -/
def configDefaultTags : List String := ["Blog"]

/-- Parsed document as the offline indexer queries it.  Each field is the
result of one DOM query extractMetadata performs: titleQ answers the
combined h1, post-title-main, title selector; the meta fields carry an
inner Option for the content attribute; tagEls lists the text content of
elements with a tag class; bodyText is the text content of the body. -/
structure HDoc where
  titleQ : Option String
  metaDescription : Option (Option String)
  firstP : Option String
  metaDate : Option (Option String)
  metaCategory : Option (Option String)
  catEl : Option String
  metaKeywords : Option (Option String)
  tagEls : List String
  metaAuthor : Option (Option String)
  bodyText : String
deriving DecidableEq

/-- Post metadata record produced by the offline indexer.  Fields that the
code can leave as JS null (a meta tag present with no content attribute)
are Options. -/
structure PostRecord where
  id : String
  title : String
  excerpt : String
  date : String
  category : Option String
  tags : List String
  author : Option String
  readTime : String
  slug : String
  wordCount : Nat
  lastModified : String
deriving DecidableEq

/-- Model of path.basename(filename, html extension). -/
def basenameHtml (fn : String) : String :=
  if (".html".data).isSuffixOf fn.data then ⟨fn.data.take (fn.data.length - 5)⟩ else fn

/-- Title strategy: the first element the combined query returns, trimmed,
else the literal default. -/
def titleOf (t : Option String) : String :=
  match t with
  | some s => jsTrim s
  | none => "Untitled Post"

/-- Excerpt strategy chain of extractMetadata: description meta content
(possibly null), else the trimmed first paragraph truncated at 200
characters, else the empty string; the record assembly then applies the
falsy-or default. -/
def excerptRaw (desc : Option (Option String)) (firstP : Option String) : Option String :=
  match desc with
  | some c => c
  | none =>
    match firstP with
    | some p =>
      let t := jsTrim p
      some (if 200 < strLen t then jsTake 200 t ++ "..." else t)
    | none => some ""

/-- Date strategy chain: meta content truncated at the first T (a throw
when the content attribute is absent, since null has no split), else a
date pattern in the slug, else the current date. -/
def dateOf (md : Option (Option String)) (slug today : String) : Except Unit String :=
  match md with
  | some (some c) => .ok (jsTakeUntil 'T' c)
  | some none => .error ()
  | none =>
    match findYmd slug.data with
    | some m => .ok m
    | none => .ok today

/-- Category strategy chain: meta content (possibly null), else the
category element text with everything through the last whitespace of its
first line removed and trimmed, else the configured default. -/
def categoryOf (mc : Option (Option String)) (catEl : Option String) : Option String :=
  match mc with
  | some c => c
  | none =>
    match catEl with
    | some t => some (stripCatText t)
    | none => some configDefaultCategory

/-- Tags strategy chain: keywords meta content split on commas, trimmed,
empty segments dropped (a throw when the content attribute is absent),
else the trimmed tag element texts when any exist, else the default. -/
def tagsOf (mk : Option (Option String)) (tagEls : List String) : Except Unit (List String) :=
  match mk with
  | some (some c) => .ok (((jsSplitOn ',' c).map jsTrim).filter (fun t => ! strEmpty t))
  | some none => .error ()
  | none =>
    .ok (if 0 < tagEls.length then tagEls.map jsTrim else configDefaultTags)

/-- Author strategy: meta content (possibly null) else the configured
identity. -/
def authorOf (ma : Option (Option String)) : Option String :=
  match ma with
  | some c => c
  | none => some configAuthor

/-- Model of extractMetadata of generate-posts-index.js, with the clock
value passed explicitly; the result is an error exactly when the code
throws (a matched date or keywords meta tag without content attribute). -/
def extractMetadata (doc : HDoc) (filename now : String) : Except Unit PostRecord :=
  let slug := basenameHtml filename
  let today := jsTakeUntil 'T' now
  (dateOf doc.metaDate slug today).bind fun date =>
  (tagsOf doc.metaKeywords doc.tagEls).bind fun tags =>
  let wordCount := countTokens doc.bodyText
  let readTime := max 1 (ceilDiv wordCount configWpm)
  .ok {
    id := "post-" ++ slug
    title := titleOf doc.titleQ
    excerpt := jsOr (excerptRaw doc.metaDescription doc.firstP) "No excerpt available."
    date := date
    category := categoryOf doc.metaCategory doc.catEl
    tags := tags
    author := authorOf doc.metaAuthor
    readTime := toString readTime ++ " min read"
    slug := slug
    wordCount := wordCount
    lastModified := now }

/-- Category entry of the index artifact. -/
structure CatEntry where
  name : Option String
  count : Nat
  description : String
deriving DecidableEq

/-- Tag entry of the index artifact. -/
structure TagEntry where
  name : String
  count : Nat
deriving DecidableEq

/-- Statistics block of the index artifact; the average is absent (JS NaN,
null once serialised) when there are no posts. -/
structure Stats where
  totalWords : Nat
  averageReadTime : Option Nat
  latestPost : Option String
  oldestPost : Option String
deriving DecidableEq

/-- Index artifact written to posts.json. -/
structure IndexData where
  generated : String
  totalPosts : Nat
  posts : List PostRecord
  categories : List CatEntry
  tags : List TagEntry
  stats : Stats
deriving DecidableEq

/-- Date comparator of the posts sort: newest first, pairs with an
unparseable date left in place. -/
def dateDescLe : PostRecord → PostRecord → Bool :=
  keyLe (fun p => jsDateKey p.date)

/-- Directory listing step: keep the html files and sort the names, as
readdirSync filter sort does. -/
def sortedFiles (files : List (String × HDoc)) : List (String × HDoc) :=
  stableSort (fun a b => jsStrLe a.1 b.1)
    (files.filter (fun f => (".html".data).isSuffixOf f.1.data))

/-- Records extracted in directory order; a document whose extraction
throws is logged and skipped. -/
def indexRecords (files : List (String × HDoc)) (now : String) : List PostRecord :=
  (sortedFiles files).filterMap (fun f => (extractMetadata f.2 f.1 now).toOption)

/-- The records sorted newest first. -/
def sortedRecords (files : List (String × HDoc)) (now : String) : List PostRecord :=
  stableSort dateDescLe (indexRecords files now)

/-- Category names in the artifact: the distinct categories in encounter
order, then default-sorted (null rendered as the string null). -/
def catNames (files : List (String × HDoc)) (now : String) : List (Option String) :=
  stableSort (fun a b => jsStrLe (optShow a) (optShow b))
    (dedupF ((indexRecords files now).map (fun p => p.category)))

/-- Tag names in the artifact: the distinct tags in encounter order, then
default-sorted. -/
def tagNames (files : List (String × HDoc)) (now : String) : List String :=
  stableSort jsStrLe (dedupF (((indexRecords files now).map (fun p => p.tags)).flatten))

/-- Number of posts of one category. -/
def countCat (posts : List PostRecord) (c : Option String) : Nat :=
  (posts.filter (fun p => p.category == c)).length

/-- Number of posts whose tag list contains one tag. -/
def countTag (posts : List PostRecord) (t : String) : Nat :=
  (posts.filter (fun p => p.tags.contains t)).length

/-- Model of generatePostsIndex: one indexing pass over the given
directory listing at the given clock value, producing the artifact. -/
def generatePostsIndex (files : List (String × HDoc)) (now : String) : IndexData :=
  let posts := sortedRecords files now
  { generated := now
    totalPosts := posts.length
    posts := posts
    categories := (catNames files now).map (fun c =>
      { name := c, count := countCat posts c, description := "Posts about " ++ optShow c })
    tags := (tagNames files now).map (fun t =>
      { name := t, count := countTag posts t })
    stats := {
      totalWords := (posts.map (fun p => p.wordCount)).sum
      averageReadTime :=
        if posts.isEmpty then none
        else some (natRound ((posts.map (fun p => parseLeadingNat p.readTime)).sum) posts.length)
      latestPost := posts.head?.map (fun p => p.date)
      oldestPost := posts.getLast?.map (fun p => p.date) } }

end Gen

namespace Rt

/-- Parsed document as the runtime script queries it.  raw is the fetched
markup text itself (stored verbatim in the record); the title fields are
the four selectors extractTitle tries in order; catEl answers the combined
category class query; the rest mirror the offline document model. -/
structure HDoc where
  raw : String
  h1El : Option String
  titleEl : Option String
  postTitleEl : Option String
  titleClsEl : Option String
  metaDescription : Option (Option String)
  firstP : Option String
  metaDate : Option (Option String)
  metaCategory : Option (Option String)
  catEl : Option String
  metaKeywords : Option (Option String)
  tagEls : List String
  bodyText : String
deriving DecidableEq

/-- Post record the runtime parser builds; excerpt, date and category can
be JS null when a matched meta tag has no content attribute. -/
structure Post where
  id : String
  title : String
  excerpt : Option String
  content : String
  date : Option String
  category : Option String
  tags : List String
  author : String
  readTime : String
  slug : String
deriving DecidableEq

/-- Runtime title extraction: first of the four selectors that matches,
trimmed, else the default. -/
def extractTitle (doc : HDoc) : String :=
  match doc.h1El <|> doc.titleEl <|> doc.postTitleEl <|> doc.titleClsEl with
  | some s => jsTrim s
  | none => "Untitled Post"

/-- Runtime excerpt extraction: description meta content verbatim
(possibly null), else the trimmed first paragraph truncated at 200
characters, else the default; unlike the offline indexer no falsy-or is
applied afterwards, so an empty paragraph stays empty. -/
def extractExcerpt (doc : HDoc) : Option String :=
  match doc.metaDescription with
  | some c => c
  | none =>
    match doc.firstP with
    | some p =>
      let t := jsTrim p
      some (if 200 < strLen t then jsTake 200 t ++ "..." else t)
    | none => some "No excerpt available."

/-- Runtime date extraction: the meta content verbatim, time component
included and null allowed, else a date pattern in the slug, else the
current date. -/
def extractDate (doc : HDoc) (slug now : String) : Option String :=
  match doc.metaDate with
  | some c => c
  | none =>
    match findYmd slug.data with
    | some m => some m
    | none => some (jsTakeUntil 'T' now)

/-- Runtime category extraction: meta content (possibly null), else the
trimmed category element text (no icon stripping here), else the default. -/
def extractCategory (doc : HDoc) : Option String :=
  match doc.metaCategory with
  | some c => c
  | none =>
    match doc.catEl with
    | some t => some (jsTrim t)
    | none => some "General"

/-- Runtime tag extraction: keywords meta content split on commas and
trimmed, empty segments kept (a throw when the content attribute is
absent), else the trimmed tag element texts, else the default list. -/
def extractTags (doc : HDoc) : Except Unit (List String) :=
  match doc.metaKeywords with
  | some (some c) => .ok ((jsSplitOn ',' c).map jsTrim)
  | some none => .error ()
  | none =>
    .ok (if 0 < doc.tagEls.length then doc.tagEls.map jsTrim else ["Blog"])

/-- Runtime read time: the whitespace-split length (empty segments
included, no one-minute floor beyond what the split shape gives). -/
def calculateReadTime (text : String) : String :=
  toString (ceilDiv (jsSplitWsCount text) 200) ++ " min read"

/-- Model of parsePostHTML: assembles the runtime record, erring exactly
when the code throws (keywords meta tag without content attribute). -/
def parsePostHTML (doc : HDoc) (slug now : String) : Except Unit Post :=
  (extractTags doc).bind fun tags =>
  .ok {
    id := "post-" ++ slug
    title := extractTitle doc
    excerpt := extractExcerpt doc
    content := doc.raw
    date := extractDate doc slug now
    category := extractCategory doc
    tags := tags
    author := "SilentCoderHub"
    readTime := calculateReadTime doc.bodyText
    slug := slug }

/-- Environment the loader runs against: the outcome of fetching the
posts.json artifact (none for a network failure or a non-ok response,
which fetchPostsFromIndex converts to an empty list) and the outcome of
fetching each post document by slug (none for a failed fetch). -/
structure World where
  indexFetch : Option (List Post)
  postHtml : String → Option HDoc

/-- Model of fetchPostsFromIndex: the fetched list, every failure handled
internally as an empty list. -/
def fetchPostsFromIndex (w : World) : List Post :=
  w.indexFetch.getD []

/-- Fixed known-document list of discoverPosts. -/
def knownPosts : List String := ["what-exactly-is-a-computer"]

/-- Model of loadAndParsePost: none when the fetch fails or the parse
throws. -/
def loadAndParsePost (w : World) (now slug : String) : Option Post :=
  (w.postHtml slug).bind fun d => (parsePostHTML d slug now).toOption

/-- Date key of the runtime sort: a null date is the epoch (new Date of
null is time zero), an unparseable one is left in place. -/
def rDateKey (p : Post) : Option Nat :=
  match p.date with
  | none => some 0
  | some s => jsDateKey s

/-- Runtime newest-first comparator. -/
def rDateDescLe : Post → Post → Bool := keyLe rDateKey

/-- Model of discoverPosts: parse the known documents that load, newest
first. -/
def discoverPosts (w : World) (now : String) : List Post :=
  stableSort rDateDescLe (knownPosts.filterMap (loadAndParsePost w now))

/-- Literal sample records of getSamplePosts. -/
def getSamplePosts : List Post :=
  [ { id := "post-what-exactly-is-a-computer"
      title := "What Exactly is a Computer? Understanding the Essentials"
      excerpt := some ("Ever wondered what defines a computer? Let\x27s dive into its core functions, key features, and its remarkable place in both work and life. From simple devices to powerful companions.")
      content := ""
      date := some "2025-09-23"
      category := some "Computer Basics"
      tags := ["Computer Science", "Technology", "Hardware", "Basics"]
      author := "SilentCoderHub"
      readTime := "6 min read"
      slug := "what-exactly-is-a-computer" },
    { id := "post-sample-2"
      title := "Getting Started with Web Development"
      excerpt := some "A comprehensive guide to beginning your journey in web development. Learn about HTML, CSS, JavaScript, and modern frameworks."
      content := ""
      date := some "2025-09-20"
      category := some "Web Development"
      tags := ["HTML", "CSS", "JavaScript", "Frontend"]
      author := "SilentCoderHub"
      readTime := "8 min read"
      slug := "getting-started-web-development" },
    { id := "post-sample-3"
      title := "Understanding JavaScript Closures"
      excerpt := some ("Dive deep into one of JavaScript\x27s most powerful features. Learn how closures work and how to use them effectively in your code.")
      content := ""
      date := some "2025-09-18"
      category := some "Programming"
      tags := ["JavaScript", "Programming Concepts", "Functions"]
      author := "SilentCoderHub"
      readTime := "10 min read"
      slug := "understanding-javascript-closures" } ]

/-- Model of loadAllPosts: the indexed posts when any, else the discovered
posts.  The catch branch of the code, which substitutes getSamplePosts, is
reachable only if the body throws, and every operation of the body handles
its failures internally (fetchPostsFromIndex and loadAndParsePost both
catch), so the model needs no error case. -/
def loadAllPosts (w : World) (now : String) : List Post :=
  let posts := fetchPostsFromIndex w
  if 0 < posts.length then posts else discoverPosts w now

end Rt

/-! Lemmas about the stable insertion sort used to model the JS array
sort. -/

theorem mem_sortInsert {le : α → α → Bool} {x y : α} :
    ∀ {l : List α}, y ∈ sortInsert le x l ↔ y = x ∨ y ∈ l := by
  intro l
  induction l with
  | nil => simp [sortInsert]
  | cons z zs ih =>
    by_cases h : le x z = true
    · simp [sortInsert, h]
    · simp only [sortInsert, h, Bool.false_eq_true, if_false, List.mem_cons, ih]
      tauto

theorem sortInsert_perm (le : α → α → Bool) (x : α) :
    ∀ l : List α, (sortInsert le x l).Perm (x :: l) := by
  intro l
  induction l with
  | nil => simp [sortInsert]
  | cons z zs ih =>
    by_cases h : le x z = true
    · simp [sortInsert, h]
    · simp only [sortInsert, h, Bool.false_eq_true, if_false]
      exact (ih.cons z).trans (List.Perm.swap x z zs)

theorem stableSort_perm (le : α → α → Bool) :
    ∀ l : List α, (stableSort le l).Perm l := by
  intro l
  induction l with
  | nil => simp [stableSort]
  | cons z zs ih =>
    exact (sortInsert_perm le z (stableSort le zs)).trans (ih.cons z)

theorem pairwise_sortInsert {le : α → α → Bool} {G : α → Prop}
    (htot : ∀ a b, G a → G b → (le a b = true ∨ le b a = true))
    (htrans : ∀ a b c, G a → G b → G c → le a b = true → le b c = true → le a c = true)
    {x : α} (hx : G x) :
    ∀ {l : List α}, (∀ a ∈ l, G a) →
      List.Pairwise (fun a b => le a b = true) l →
      List.Pairwise (fun a b => le a b = true) (sortInsert le x l) := by
  intro l
  induction l with
  | nil => intro _ _; simp [sortInsert]
  | cons z zs ih =>
    intro hG hp
    rcases List.pairwise_cons.mp hp with ⟨hz, hzs⟩
    by_cases h : le x z = true
    · simp only [sortInsert, h, if_true]
      refine List.pairwise_cons.mpr ⟨?_, hp⟩
      intro b hb
      rcases List.mem_cons.mp hb with rfl | hb
      · exact h
      · exact htrans x z b hx (hG z (by simp)) (hG b (by simp [hb])) h (hz b hb)
    · simp only [sortInsert, h, Bool.false_eq_true, if_false]
      refine List.pairwise_cons.mpr ⟨?_, ?_⟩
      · intro b hb
        rcases mem_sortInsert.mp hb with rfl | hb
        · rcases htot b z hx (hG z (by simp)) with h1 | h1
          · exact absurd h1 h
          · exact h1
        · exact hz b hb
      · exact ih (fun a ha => hG a (by simp [ha])) hzs

theorem pairwise_stableSort {le : α → α → Bool} {G : α → Prop}
    (htot : ∀ a b, G a → G b → (le a b = true ∨ le b a = true))
    (htrans : ∀ a b c, G a → G b → G c → le a b = true → le b c = true → le a c = true) :
    ∀ {l : List α}, (∀ a ∈ l, G a) →
      List.Pairwise (fun a b => le a b = true) (stableSort le l) := by
  intro l
  induction l with
  | nil => intro _; simp [stableSort]
  | cons z zs ih =>
    intro hG
    have hmem : ∀ a ∈ stableSort le zs, G a := by
      intro a ha
      exact hG a (by simp [(stableSort_perm le zs).mem_iff.mp ha])
    exact pairwise_sortInsert htot htrans (hG z (by simp)) hmem
      (ih (fun a ha => hG a (by simp [ha])))

theorem filter_sortInsert_of_ne {le : α → α → Bool} (p : α → Bool) (x : α)
    (hx : p x = false) :
    ∀ l : List α, (sortInsert le x l).filter p = l.filter p := by
  intro l
  induction l with
  | nil => simp [sortInsert, hx]
  | cons z zs ih =>
    by_cases h : le x z = true
    · simp [sortInsert, h, List.filter, hx]
    · simp only [sortInsert, h, Bool.false_eq_true, if_false, List.filter]
      cases p z <;> simp [ih]

theorem filter_sortInsert_key {key : α → Option Nat} {k : Nat} {x : α}
    (hx : key x = some k) :
    ∀ l : List α,
      (sortInsert (keyLe key) x l).filter (fun a => key a == some k)
        = x :: l.filter (fun a => key a == some k) := by
  intro l
  induction l with
  | nil => simp [sortInsert, List.filter, hx]
  | cons z zs ih =>
    by_cases h : keyLe key x z = true
    · simp [sortInsert, h, List.filter, hx]
    · have hz : (key z == some k) = false := by
        simp only [keyLe, hx] at h
        cases hkz : key z with
        | none => rw [hkz] at h; simp at h
        | some kz =>
          rw [hkz] at h
          simp only [decide_eq_true_eq] at h
          have : kz ≠ k := by
            intro hk; exact h (by omega)
          simp [this]
      simp only [sortInsert, h, Bool.false_eq_true, if_false, List.filter, hz, ih]

theorem filter_stableSort_key (key : α → Option Nat) (k : Nat) :
    ∀ l : List α,
      (stableSort (keyLe key) l).filter (fun a => key a == some k)
        = l.filter (fun a => key a == some k) := by
  intro l
  induction l with
  | nil => simp [stableSort]
  | cons z zs ih =>
    by_cases hz : key z = some k
    · rw [stableSort, filter_sortInsert_key hz, ih]
      simp [List.filter, hz]
    · have hz2 : (key z == some k) = false := by simp [hz]
      rw [stableSort, filter_sortInsert_of_ne (fun a => key a == some k) z hz2, ih]
      simp [List.filter, hz2]

theorem sortInsert_map (f : α → β) (le : α → α → Bool) (le2 : β → β → Bool)
    (h : ∀ a b, le2 (f a) (f b) = le a b) (x : α) :
    ∀ l : List α, sortInsert le2 (f x) (l.map f) = (sortInsert le x l).map f := by
  intro l
  induction l with
  | nil => simp [sortInsert]
  | cons z zs ih =>
    by_cases hc : le x z = true
    · simp [sortInsert, h, hc]
    · simp [sortInsert, h, hc, ih]

theorem stableSort_map (f : α → β) (le : α → α → Bool) (le2 : β → β → Bool)
    (h : ∀ a b, le2 (f a) (f b) = le a b) :
    ∀ l : List α, stableSort le2 (l.map f) = (stableSort le l).map f := by
  intro l
  induction l with
  | nil => simp [stableSort]
  | cons z zs ih =>
    simp only [List.map, stableSort, ih]
    exact sortInsert_map f le le2 h z (stableSort le zs)

/-! Lemmas about the lexicographic string order of the JS default sort. -/

theorem lexLe_total : ∀ a b : List Char, lexLe a b = true ∨ lexLe b a = true := by
  intro a
  induction a with
  | nil => intro b; left; simp [lexLe]
  | cons c cs ih =>
    intro b
    cases b with
    | nil => right; simp [lexLe]
    | cons d ds =>
      by_cases h : c = d
      · subst h
        rcases ih ds with h1 | h1
        · left; simp [lexLe, h1]
        · right; simp [lexLe, h1]
      · rcases lt_or_gt_of_ne (show c ≠ d from h) with h1 | h1
        · left; simp [lexLe, h, h1]
        · right; simp [lexLe, Ne.symm h, h1]

theorem lexLe_trans :
    ∀ a b c : List Char, lexLe a b = true → lexLe b c = true → lexLe a c = true := by
  intro a
  induction a with
  | nil => intro b c _ _; simp [lexLe]
  | cons x xs ih =>
    intro b c hab hbc
    cases b with
    | nil => simp [lexLe] at hab
    | cons y ys =>
      cases c with
      | nil => simp [lexLe] at hbc
      | cons z zs =>
        simp only [lexLe] at hab hbc ⊢
        by_cases hxy : x = y
        · subst hxy
          rw [if_pos rfl] at hab
          by_cases hyz : x = z
          · subst hyz
            rw [if_pos rfl] at hbc ⊢
            exact ih ys zs hab hbc
          · rw [if_neg hyz] at hbc ⊢
            exact hbc
        · rw [if_neg hxy] at hab
          have hab2 : x < y := of_decide_eq_true hab
          by_cases hyz : y = z
          · subst hyz
            rw [if_neg hxy]
            exact hab
          · rw [if_neg hyz] at hbc
            have hbc2 : y < z := of_decide_eq_true hbc
            have hxz : x < z := lt_trans hab2 hbc2
            rw [if_neg (ne_of_lt hxz)]
            exact decide_eq_true hxz

theorem jsStrLe_total : ∀ a b : String, jsStrLe a b = true ∨ jsStrLe b a = true := by
  intro a b; exact lexLe_total a.data b.data

theorem jsStrLe_trans :
    ∀ a b c : String, jsStrLe a b = true → jsStrLe b c = true → jsStrLe a c = true := by
  intro a b c; exact lexLe_trans a.data b.data c.data

/-- The comma split never produces an empty segment list. -/
theorem splitChars_ne_nil (c : Char) : ∀ l : List Char, splitChars c l ≠ [] := by
  intro l
  induction l with
  | nil => simp [splitChars]
  | cons a as ih =>
    simp only [splitChars]
    by_cases h : a = c
    · simp [h]
    · simp only [h, if_neg h]
      cases hr : splitChars c as with
      | nil => simp
      | cons g gs => simp

/-! Inversion lemmas for the two builders. -/

theorem dateOf_isOk {md : Option (Option String)} (h : md ≠ some none)
    (slug today : String) : ∃ v, Gen.dateOf md slug today = .ok v := by
  match md with
  | none =>
    unfold Gen.dateOf
    cases findYmd slug.data <;> exact ⟨_, rfl⟩
  | some (some c) => exact ⟨_, rfl⟩
  | some none => exact absurd rfl h

theorem tagsOf_isOk {mk : Option (Option String)} (h : mk ≠ some none)
    (tagEls : List String) : ∃ v, Gen.tagsOf mk tagEls = .ok v := by
  match mk with
  | none => exact ⟨_, rfl⟩
  | some (some c) => exact ⟨_, rfl⟩
  | some none => exact absurd rfl h

/-- Full shape of a successful offline extraction: when the matched date
and keywords meta tags carry a content attribute, extractMetadata returns
the assembled record. -/
theorem extractMetadata_ok {d : Gen.HDoc} {fn now : String}
    (h1 : d.metaDate ≠ some none) (h2 : d.metaKeywords ≠ some none) :
    ∃ dv tv,
      Gen.dateOf d.metaDate (Gen.basenameHtml fn) (jsTakeUntil 'T' now) = .ok dv
      ∧ Gen.tagsOf d.metaKeywords d.tagEls = .ok tv
      ∧ Gen.extractMetadata d fn now = .ok {
          id := "post-" ++ Gen.basenameHtml fn
          title := Gen.titleOf d.titleQ
          excerpt := jsOr (Gen.excerptRaw d.metaDescription d.firstP) "No excerpt available."
          date := dv
          category := Gen.categoryOf d.metaCategory d.catEl
          tags := tv
          author := Gen.authorOf d.metaAuthor
          readTime := toString (max 1 (ceilDiv (countTokens d.bodyText) Gen.configWpm)) ++ " min read"
          slug := Gen.basenameHtml fn
          wordCount := countTokens d.bodyText
          lastModified := now } := by
  obtain ⟨dv, hdv⟩ := dateOf_isOk h1 (Gen.basenameHtml fn) (jsTakeUntil 'T' now)
  obtain ⟨tv, htv⟩ := tagsOf_isOk h2 d.tagEls
  refine ⟨dv, tv, hdv, htv, ?_⟩
  simp only [Gen.extractMetadata]
  rw [hdv, htv]
  rfl

theorem extractTags_isOk {d : Rt.HDoc} (h : d.metaKeywords ≠ some none) :
    ∃ v, Rt.extractTags d = .ok v := by
  unfold Rt.extractTags
  match hmk : d.metaKeywords with
  | none => exact ⟨_, rfl⟩
  | some (some c) => exact ⟨_, rfl⟩
  | some none => exact absurd hmk h

/-- Full shape of a successful runtime parse. -/
theorem parsePostHTML_ok {d : Rt.HDoc} {slug now : String}
    (h : d.metaKeywords ≠ some none) :
    ∃ tv,
      Rt.extractTags d = .ok tv
      ∧ Rt.parsePostHTML d slug now = .ok {
          id := "post-" ++ slug
          title := Rt.extractTitle d
          excerpt := Rt.extractExcerpt d
          content := d.raw
          date := Rt.extractDate d slug now
          category := Rt.extractCategory d
          tags := tv
          author := "SilentCoderHub"
          readTime := Rt.calculateReadTime d.bodyText
          slug := slug } := by
  obtain ⟨tv, htv⟩ := extractTags_isOk h
  refine ⟨tv, htv, ?_⟩
  unfold Rt.parsePostHTML
  rw [htv]
  rfl

/-! Concrete inputs used by the claim checks. -/

/-- Fixed clock value used in the concrete runs. -/
def tSample : String := "2025-10-12T00:00:00.000Z"

/-- Document answering every query with nothing. -/
def docEmpty : Gen.HDoc :=
  { titleQ := none, metaDescription := none, firstP := none, metaDate := none,
    metaCategory := none, catEl := none, metaKeywords := none, tagEls := [],
    metaAuthor := none, bodyText := "" }

/-- Document with a keywords meta tag that has no content attribute. -/
def docKwNull : Gen.HDoc := { docEmpty with metaKeywords := some none }

/-- Document whose keywords meta content is a bare comma. -/
def docComma : Gen.HDoc := { docEmpty with metaKeywords := some (some ",") }

/-- Document whose first paragraph is whitespace only. -/
def docWs : Gen.HDoc := { docEmpty with firstP := some "   " }

/-- Document whose first paragraph is 250 characters long. -/
def docLong : Gen.HDoc := { docEmpty with firstP := some ⟨List.replicate 250 'a'⟩ }

/-- Documents whose tag counts disagree with alphabetical order. -/
def docZ1 : Gen.HDoc :=
  { docEmpty with metaKeywords := some (some "Z"), metaDate := some (some "2025-09-01") }

def docZ2 : Gen.HDoc :=
  { docEmpty with metaKeywords := some (some "Z"), metaDate := some (some "2025-09-02") }

def docA : Gen.HDoc :=
  { docEmpty with metaKeywords := some (some "A"), metaDate := some (some "2025-09-03") }

/-- Documents of the tag aggregation example, tagged X,Y and X. -/
def docXY : Gen.HDoc :=
  { docEmpty with metaKeywords := some (some "X,Y"), metaDate := some (some "2025-09-01") }

def docX : Gen.HDoc :=
  { docEmpty with metaKeywords := some (some "X"), metaDate := some (some "2025-09-02") }

/-- Document carrying the same tag twice. -/
def docXX : Gen.HDoc :=
  { docEmpty with metaKeywords := some (some "X, X"), metaDate := some (some "2025-09-01") }

/-- Documents dated 2025-09-20, 2025-09-23 and 2025-09-18 in encounter
order. -/
def docD20 : Gen.HDoc := { docEmpty with metaDate := some (some "2025-09-20") }

def docD23 : Gen.HDoc := { docEmpty with metaDate := some (some "2025-09-23") }

def docD18 : Gen.HDoc := { docEmpty with metaDate := some (some "2025-09-18") }

def filesC5 : List (String × Gen.HDoc) :=
  [("a.html", docD20), ("b.html", docD23), ("c.html", docD18)]

/-- Runtime document answering every query with nothing. -/
def rDocEmpty : Rt.HDoc :=
  { raw := "", h1El := none, titleEl := none, postTitleEl := none, titleClsEl := none,
    metaDescription := none, firstP := none, metaDate := none, metaCategory := none,
    catEl := none, metaKeywords := none, tagEls := [], bodyText := "" }

/-- Runtime document whose keywords content has an empty middle segment. -/
def rDocAB : Rt.HDoc := { rDocEmpty with metaKeywords := some (some "A,,B") }

/-- Runtime document whose keywords content is the list of the examples. -/
def rDocABC : Rt.HDoc := { rDocEmpty with metaKeywords := some (some "A, B ,C") }

/-- Runtime document whose date meta content carries a time component. -/
def rDocTime : Rt.HDoc := { rDocEmpty with metaDate := some (some "2025-09-23T10:00:00Z") }

/-- Environment in which the artifact fetch fails and no known document
loads. -/
def wFail : Rt.World := { indexFetch := none, postHtml := fun _ => none }

/-! Claim C1. -/

/-- C1 counterexample: the claim is false on the code.  On a document
whose keywords meta tag matches but has no content attribute, the offline
builder does not degrade that field to its default: getAttribute returns
null and the split call throws, so the whole extraction aborts with no
record. -/
theorem extractMetadata_throws_on_contentless_keywords :
    Gen.extractMetadata docKwNull "x.html" tSample = .error () := rfl

/-- C1 amended: both builders return a complete record without throwing
provided every matched date or keywords meta tag carries its content
attribute; a matched date or keywords tag without one makes the offline
extraction throw (the indexer then skips the document), and a matched
keywords tag without one makes the runtime parse throw. -/
theorem extract_total_of_content_present :
    (∀ (d : Gen.HDoc) (fn now : String), d.metaDate ≠ some none →
        d.metaKeywords ≠ some none →
        (Gen.extractMetadata d fn now).toOption.isSome = true)
    ∧ (∀ (d : Rt.HDoc) (slug now : String), d.metaKeywords ≠ some none →
        (Rt.parsePostHTML d slug now).toOption.isSome = true) := by
  constructor
  · intro d fn now h1 h2
    obtain ⟨dv, tv, _, _, hok⟩ := extractMetadata_ok h1 h2
    rw [hok]
    rfl
  · intro d slug now h
    obtain ⟨tv, _, hok⟩ := parsePostHTML_ok h
    rw [hok]
    rfl

/-- C1 witness: the amended theorem applied to concrete documents. -/
theorem extract_total_of_content_present_witness :
    (docEmpty.metaDate ≠ some none ∧ docEmpty.metaKeywords ≠ some none
      ∧ (Gen.extractMetadata docEmpty "x.html" tSample).toOption.isSome = true)
    ∧ (rDocEmpty.metaKeywords ≠ some none
      ∧ (Rt.parsePostHTML rDocEmpty "s" tSample).toOption.isSome = true) :=
  ⟨⟨by decide, by decide,
      extract_total_of_content_present.1 docEmpty "x.html" tSample (by decide) (by decide)⟩,
    ⟨by decide,
      extract_total_of_content_present.2 rDocEmpty "s" tSample (by decide)⟩⟩

/-! Claim C2. -/

/-- C2 counterexample: with the artifact fetch failing and the known list
yielding zero loadable documents, the loader ends with the empty
collection, not the sample set; the claim is false on the code. -/
theorem loadAllPosts_empty_not_samples :
    Rt.loadAllPosts wFail tSample = []
    ∧ Rt.loadAllPosts wFail tSample ≠ Rt.getSamplePosts := by
  constructor
  · rfl
  · intro h
    have : ([] : List Rt.Post) = Rt.getSamplePosts := h
    simp [Rt.getSamplePosts] at this

/-- C2 amended: when the artifact read fails or yields zero posts and
every known document fails to load, the resulting collection is the empty
list; getSamplePosts is substituted only when the loader body throws,
which its internal error handling prevents. -/
theorem loadAllPosts_eq_nil_of_all_fail (w : Rt.World) (now : String)
    (h1 : Rt.fetchPostsFromIndex w = [])
    (h2 : ∀ s ∈ Rt.knownPosts, Rt.loadAndParsePost w now s = none) :
    Rt.loadAllPosts w now = [] := by
  unfold Rt.loadAllPosts Rt.discoverPosts
  rw [h1, List.filterMap_eq_nil_iff.mpr h2]
  rfl

/-- C2 witness: the amended theorem at a concrete failing environment. -/
theorem loadAllPosts_eq_nil_of_all_fail_witness :
    (Rt.fetchPostsFromIndex wFail = []
      ∧ ∀ s ∈ Rt.knownPosts, Rt.loadAndParsePost wFail tSample s = none)
    ∧ Rt.loadAllPosts wFail tSample = [] :=
  ⟨⟨rfl, fun _ _ => rfl⟩,
    loadAllPosts_eq_nil_of_all_fail wFail tSample rfl (fun _ _ => rfl)⟩

/-! Claim C9. -/

/-- Keywords content whose comma segments all trim to nothing. -/
def kwAllEmpty (mk : Option (Option String)) : Bool :=
  match mk with
  | some (some c) => ((jsSplitOn ',' c).map jsTrim).all (fun t => strEmpty t)
  | _ => false

/-- C9 counterexample: a document whose keywords meta content is a bare
comma produces a record with an empty tags list, so the non-empty tags
invariant is false on the offline builder. -/
theorem tags_empty_on_comma_keywords :
    (Gen.extractMetadata docComma "x.html" tSample).toOption.map (fun p => p.tags)
      = some [] := rfl

/-- C9 amended: a produced offline record has an empty tags list exactly
when the keywords meta content consists of segments that all trim to
nothing; in every other case, and always at runtime, the produced tags
list is non-empty. -/
theorem tags_nonempty_iff_amended :
    (∀ (d : Gen.HDoc) (fn now : String) (r : Gen.PostRecord),
        Gen.extractMetadata d fn now = .ok r →
        (r.tags = [] ↔ kwAllEmpty d.metaKeywords = true))
    ∧ (∀ (d : Rt.HDoc) (slug now : String) (r : Rt.Post),
        Rt.parsePostHTML d slug now = .ok r → r.tags ≠ []) := by
  constructor
  · intro d fn now r hr
    have h1 : d.metaDate ≠ some none := by
      intro hmd
      simp only [Gen.extractMetadata] at hr
      rw [hmd] at hr
      simp [Gen.dateOf, Except.bind] at hr
    have h2 : d.metaKeywords ≠ some none := by
      intro hmk
      simp only [Gen.extractMetadata] at hr
      rw [hmk] at hr
      obtain ⟨dv, hdv⟩ := dateOf_isOk h1 (Gen.basenameHtml fn) (jsTakeUntil 'T' now)
      rw [hdv] at hr
      simp [Gen.tagsOf, Except.bind] at hr
    obtain ⟨dv, tv, hdv, htv, hok⟩ := extractMetadata_ok h1 h2
    rw [hok] at hr
    have hrt : r.tags = tv := by
      cases hr
      rfl
    rw [hrt]
    match hmk : d.metaKeywords with
    | none =>
      rw [hmk] at htv
      unfold Gen.tagsOf at htv
      simp only [kwAllEmpty]
      by_cases ht : 0 < d.tagEls.length
      · rw [if_pos ht] at htv
        cases htv
        constructor
        · intro hmap
          rw [List.map_eq_nil_iff.mp hmap] at ht
          simp at ht
        · intro hfalse
          simp at hfalse
      · rw [if_neg ht] at htv
        cases htv
        simp [Gen.configDefaultTags]
    | some none => exact absurd hmk h2
    | some (some c) =>
      rw [hmk] at htv
      unfold Gen.tagsOf at htv
      cases htv
      simp only [kwAllEmpty]
      rw [List.filter_eq_nil_iff, List.all_eq_true]
      constructor
      · intro hall t ht
        have := hall t ht
        simpa using this
      · intro hall t ht
        have := hall t ht
        simpa using this
  · intro d slug now r hr
    have h : d.metaKeywords ≠ some none := by
      intro hmk
      unfold Rt.parsePostHTML Rt.extractTags at hr
      rw [hmk] at hr
      simp [Except.bind] at hr
    obtain ⟨tv, htv, hok⟩ := parsePostHTML_ok h
    rw [hok] at hr
    have hrt : r.tags = tv := by
      cases hr
      rfl
    rw [hrt]
    unfold Rt.extractTags at htv
    match hmk : d.metaKeywords with
    | none =>
      rw [hmk] at htv
      by_cases ht : 0 < d.tagEls.length
      · rw [if_pos ht] at htv
        cases htv
        intro hmap
        rw [List.map_eq_nil_iff.mp hmap] at ht
        simp at ht
      · rw [if_neg ht] at htv
        cases htv
        simp
    | some none => exact absurd hmk h
    | some (some c) =>
      rw [hmk] at htv
      cases htv
      intro hmap
      have hnil := List.map_eq_nil_iff.mp hmap
      exact splitChars_ne_nil ',' c.data (by simpa [jsSplitOn] using hnil)

/-- Record the comma-keywords document extracts to. -/
def rComma : Gen.PostRecord :=
  { id := "post-x", title := "Untitled Post", excerpt := "No excerpt available.",
    date := "2025-10-12", category := some "General", tags := [],
    author := some "SilentCoderHub", readTime := "1 min read", slug := "x",
    wordCount := 0, lastModified := tSample }

/-- C9 witness: the amended theorem at the comma-keywords document. -/
theorem tags_nonempty_iff_amended_witness :
    Gen.extractMetadata docComma "x.html" tSample = .ok rComma
    ∧ (rComma.tags = [] ↔ kwAllEmpty docComma.metaKeywords = true) :=
  ⟨rfl, tags_nonempty_iff_amended.1 docComma "x.html" tSample rComma rfl⟩

/-! Claim C10. -/

/-- C10: in the artifact, each tag entry counts the records whose tags
list contains the tag, so a tag repeated inside one record contributes
once. -/
theorem artifact_tag_counts_membership (files : List (String × Gen.HDoc))
    (now : String) (e : Gen.TagEntry)
    (he : e ∈ (Gen.generatePostsIndex files now).tags) :
    e.count = ((Gen.generatePostsIndex files now).posts.filter
        (fun p => p.tags.contains e.name)).length := by
  simp only [Gen.generatePostsIndex] at he ⊢
  rcases List.mem_map.mp he with ⟨t, _, rfl⟩
  rfl

/-! Claim C3. -/

/-- C3 counterexample: the artifact tag list of a concrete run is not
sorted by descending count (tag A with count one precedes tag Z with count
two), so the claim is false on the offline indexer. -/
theorem artifact_tags_not_count_sorted :
    ¬ List.Pairwise (fun a b => b.count ≤ a.count)
        ((Gen.generatePostsIndex
            [("a.html", docZ1), ("b.html", docZ2), ("c.html", docA)] tSample).tags) := by
  decide

/-- C3 amended: the artifact tag list is sorted by ascending name under
the JS default string order and is never truncated, holding one entry per
distinct tag; the counts of the two-document example are as the claim
states.  The descending-count top-ten list exists only in the runtime
sidebar, not in the artifact. -/
theorem artifact_tags_name_sorted :
    (∀ (files : List (String × Gen.HDoc)) (now : String),
        List.Pairwise (fun a b => jsStrLe a.name b.name = true)
          ((Gen.generatePostsIndex files now).tags)
        ∧ (Gen.generatePostsIndex files now).tags.length
            = (dedupF (((Gen.indexRecords files now).map (fun p => p.tags)).flatten)).length)
    ∧ (Gen.generatePostsIndex [("a.html", docXY), ("b.html", docX)] tSample).tags
        = [⟨"X", 2⟩, ⟨"Y", 1⟩] := by
  constructor
  · intro files now
    constructor
    · simp only [Gen.generatePostsIndex, Gen.tagNames]
      refine List.Pairwise.map _ (fun a b h => h) ?_
      exact pairwise_stableSort (G := fun _ => True)
        (fun a b _ _ => jsStrLe_total a b)
        (fun a b c _ _ _ hab hbc => jsStrLe_trans a b c hab hbc)
        (fun _ _ => trivial)
    · simp only [Gen.generatePostsIndex, Gen.tagNames, List.length_map]
      exact (stableSort_perm _ _).length_eq
  · decide

/-- C3 witness: the universal part of the amended theorem at the
two-document example. -/
theorem artifact_tags_name_sorted_witness :
    List.Pairwise (fun a b => jsStrLe a.name b.name = true)
      ((Gen.generatePostsIndex [("a.html", docXY), ("b.html", docX)] tSample).tags) :=
  (artifact_tags_name_sorted.1 [("a.html", docXY), ("b.html", docX)] tSample).1

/-! Claim C5. -/

theorem keyLe_total (key : α → Option Nat) (a b : α) :
    keyLe key a b = true ∨ keyLe key b a = true := by
  cases ha : key a with
  | none => left; simp [keyLe, ha]
  | some x =>
    cases hb : key b with
    | none => left; simp [keyLe, ha, hb]
    | some y =>
      rcases Nat.le_total y x with h | h
      · left; simp [keyLe, ha, hb, h]
      · right; simp [keyLe, ha, hb, h]

theorem keyLe_trans (key : α → Option Nat) (a b c : α)
    (ha : (key a).isSome = true) (hb : (key b).isSome = true)
    (hc : (key c).isSome = true)
    (h1 : keyLe key a b = true) (h2 : keyLe key b c = true) :
    keyLe key a c = true := by
  obtain ⟨x, hx⟩ := Option.isSome_iff_exists.mp ha
  obtain ⟨y, hy⟩ := Option.isSome_iff_exists.mp hb
  obtain ⟨z, hz⟩ := Option.isSome_iff_exists.mp hc
  simp only [keyLe, hx, hy, hz, decide_eq_true_eq] at h1 h2 ⊢
  omega

/-- C5: the artifact posts sequence is a permutation of the extracted
records, pairwise sorted newest first, and records with equal date keys
keep their encounter order (stability), provided every extracted date
parses as a calendar date. -/
theorem artifact_posts_sorted_stable (files : List (String × Gen.HDoc)) (now : String)
    (h : ∀ p ∈ Gen.indexRecords files now, (jsDateKey p.date).isSome = true) :
    ((Gen.generatePostsIndex files now).posts).Perm (Gen.indexRecords files now)
    ∧ List.Pairwise (fun a b => Gen.dateDescLe a b = true)
        ((Gen.generatePostsIndex files now).posts)
    ∧ ∀ k : Nat,
        (Gen.generatePostsIndex files now).posts.filter
            (fun p => jsDateKey p.date == some k)
          = (Gen.indexRecords files now).filter (fun p => jsDateKey p.date == some k) := by
  have hposts : (Gen.generatePostsIndex files now).posts = Gen.sortedRecords files now := rfl
  refine ⟨?_, ?_, ?_⟩
  · rw [hposts]
    exact stableSort_perm _ _
  · rw [hposts]
    unfold Gen.sortedRecords
    exact pairwise_stableSort (G := fun p : Gen.PostRecord => (jsDateKey p.date).isSome = true)
      (fun a b _ _ => keyLe_total _ a b)
      (fun a b c ha hb hc hab hbc => keyLe_trans _ a b c ha hb hc hab hbc)
      h
  · intro k
    rw [hposts]
    unfold Gen.sortedRecords
    exact filter_stableSort_key (fun p : Gen.PostRecord => jsDateKey p.date) k _

/-- C5 witness: the theorem at documents dated 2025-09-20, 2025-09-23 and
2025-09-18, whose artifact order is 2025-09-23, 2025-09-20, 2025-09-18. -/
theorem artifact_posts_sorted_stable_witness :
    (∀ p ∈ Gen.indexRecords filesC5 tSample, (jsDateKey p.date).isSome = true)
    ∧ List.Pairwise (fun a b => Gen.dateDescLe a b = true)
        ((Gen.generatePostsIndex filesC5 tSample).posts)
    ∧ (Gen.generatePostsIndex filesC5 tSample).posts.map (fun p => p.date)
        = ["2025-09-23", "2025-09-20", "2025-09-18"] :=
  ⟨by decide,
    (artifact_posts_sorted_stable filesC5 tSample (by decide)).2.1,
    by decide⟩

/-! Claim C6. -/

theorem strData_append (a b : String) : (a ++ b).data = a.data ++ b.data := rfl

theorem strEmpty_append_dots (x : String) : strEmpty (x ++ "...") = false := by
  simp only [strEmpty, strData_append]
  cases x.data <;> simp

theorem strEmpty_eq_false_of_len {t : String} (h : 0 < strLen t) : strEmpty t = false := by
  cases hd : t.data with
  | nil => rw [strLen, hd] at h; simp at h
  | cons a as => simp [strEmpty, hd]

/-- C6 counterexample: a first paragraph of three whitespace characters is
not kept verbatim by the offline builder: the trimmed text is empty, which
is falsy, so the record gets the default excerpt instead. -/
theorem excerpt_blank_paragraph_defaults :
    (Gen.extractMetadata docWs "x.html" tSample).toOption.map (fun p => p.excerpt)
      = some "No excerpt available."
    ∧ "No excerpt available." ≠ "   " := ⟨rfl, by decide⟩

/-- C6 amended: with no description meta tag, the first paragraph text is
trimmed first; if the trimmed text exceeds 200 characters the excerpt is
its first 200 characters plus three dots, 203 characters in total; a
non-empty trimmed text of at most 200 characters is kept as is; an empty
trimmed text falls to the offline default (the runtime parser keeps even
the empty text). -/
theorem excerpt_truncation_amended :
    (∀ (d : Gen.HDoc) (fn now s : String), d.metaDescription = none → d.firstP = some s →
        d.metaDate ≠ some none → d.metaKeywords ≠ some none →
        (Gen.extractMetadata d fn now).toOption.map (fun p => p.excerpt)
          = some (if strEmpty (jsTrim s) then "No excerpt available."
                  else if 200 < strLen (jsTrim s) then jsTake 200 (jsTrim s) ++ "..."
                  else jsTrim s))
    ∧ (∀ s : String, 200 < strLen (jsTrim s) →
        strLen (jsTake 200 (jsTrim s) ++ "...") = 203)
    ∧ (∀ (d : Rt.HDoc) (slug now s : String), d.metaDescription = none → d.firstP = some s →
        d.metaKeywords ≠ some none →
        (Rt.parsePostHTML d slug now).toOption.map (fun p => p.excerpt)
          = some (some (if 200 < strLen (jsTrim s) then jsTake 200 (jsTrim s) ++ "..."
                        else jsTrim s))) := by
  refine ⟨?_, ?_, ?_⟩
  · intro d fn now s hdesc hfp h1 h2
    obtain ⟨dv, tv, _, _, hok⟩ := extractMetadata_ok h1 h2
    rw [hok]
    simp only [Except.toOption, Option.map]
    unfold Gen.excerptRaw
    rw [hdesc, hfp]
    by_cases hlen : 200 < strLen (jsTrim s)
    · have ht : strEmpty (jsTrim s) = false :=
        strEmpty_eq_false_of_len (by omega)
      simp [jsOr, hlen, ht, strEmpty_append_dots]
    · by_cases he : strEmpty (jsTrim s) = true
      · simp [jsOr, hlen, he]
      · simp [jsOr, hlen, he]
  · intro s h
    have hd : (jsTake 200 (jsTrim s) ++ "...").data
        = (jsTrim s).data.take 200 ++ "...".data := rfl
    rw [strLen, hd, List.length_append, List.length_take]
    rw [strLen] at h
    have h2 : min 200 (jsTrim s).data.length = 200 := Nat.min_eq_left (Nat.le_of_lt h)
    rw [h2]
    rfl
  · intro d slug now s hdesc hfp h
    obtain ⟨tv, _, hok⟩ := parsePostHTML_ok h
    rw [hok]
    simp only [Except.toOption, Option.map]
    unfold Rt.extractExcerpt
    rw [hdesc, hfp]

set_option maxRecDepth 4000 in
/-- C6 witness: the amended theorem at a 250-character paragraph, whose
excerpt has exactly 203 characters. -/
theorem excerpt_truncation_amended_witness :
    ((Gen.extractMetadata docLong "x.html" tSample).toOption.map (fun p => p.excerpt)
        = some (if strEmpty (jsTrim ⟨List.replicate 250 'a'⟩) then "No excerpt available."
                else if 200 < strLen (jsTrim ⟨List.replicate 250 'a'⟩) then
                  jsTake 200 (jsTrim ⟨List.replicate 250 'a'⟩) ++ "..."
                else jsTrim ⟨List.replicate 250 'a'⟩))
    ∧ strLen (jsTake 200 (jsTrim ⟨List.replicate 250 'a'⟩) ++ "...") = 203 :=
  ⟨excerpt_truncation_amended.1 docLong "x.html" tSample ⟨List.replicate 250 'a'⟩
      rfl rfl (by decide) (by decide),
    excerpt_truncation_amended.2.1 ⟨List.replicate 250 'a'⟩ (by decide)⟩

/-! Claim C7. -/

/-- C7 counterexample: the runtime parser keeps empty comma segments, so
for keywords content with an empty middle segment the extracted tags
contain the empty string; the claim that empty segments are dropped is
false on the runtime extractor. -/
theorem runtime_tags_keep_empty_segments :
    (Rt.parsePostHTML rDocAB "s" tSample).toOption.map (fun p => p.tags)
      = some ["A", "", "B"]
    ∧ ("" ∈ ["A", "", "B"])
    ∧ (["A", "", "B"] ≠ ["A", "B"]) := ⟨rfl, by decide, by decide⟩

/-- C7 amended: for a document with a keywords meta tag carrying content,
the offline builder extracts the comma segments trimmed with empty ones
dropped, while the runtime parser extracts the segments trimmed but keeps
empty ones; on the example content the result is the same three tags. -/
theorem tags_split_trim_amended :
    (∀ (d : Gen.HDoc) (fn now c : String), d.metaKeywords = some (some c) →
        d.metaDate ≠ some none →
        (Gen.extractMetadata d fn now).toOption.map (fun p => p.tags)
          = some (((jsSplitOn ',' c).map jsTrim).filter (fun t => ! strEmpty t)))
    ∧ (∀ (d : Rt.HDoc) (slug now c : String), d.metaKeywords = some (some c) →
        (Rt.parsePostHTML d slug now).toOption.map (fun p => p.tags)
          = some ((jsSplitOn ',' c).map jsTrim))
    ∧ (jsSplitOn ',' "A, B ,C").map jsTrim = ["A", "B", "C"] := by
  refine ⟨?_, ?_, by decide⟩
  · intro d fn now c hmk h1
    have h2 : d.metaKeywords ≠ some none := by rw [hmk]; simp
    obtain ⟨dv, tv, _, htv, hok⟩ := extractMetadata_ok h1 h2
    rw [hmk] at htv
    unfold Gen.tagsOf at htv
    cases htv
    rw [hok]
    rfl
  · intro d slug now c hmk
    have h : d.metaKeywords ≠ some none := by rw [hmk]; simp
    obtain ⟨tv, htv, hok⟩ := parsePostHTML_ok h
    unfold Rt.extractTags at htv
    rw [hmk] at htv
    cases htv
    rw [hok]
    rfl

/-- Offline document with the example keywords content. -/
def docABC : Gen.HDoc := { docEmpty with metaKeywords := some (some "A, B ,C") }

/-- C7 witness: the amended theorem at the example content. -/
theorem tags_split_trim_amended_witness :
    ((Gen.extractMetadata docABC "x.html" tSample).toOption.map (fun p => p.tags)
        = some (((jsSplitOn ',' "A, B ,C").map jsTrim).filter (fun t => ! strEmpty t)))
    ∧ ((Rt.parsePostHTML rDocABC "s" tSample).toOption.map (fun p => p.tags)
        = some ((jsSplitOn ',' "A, B ,C").map jsTrim)) :=
  ⟨tags_split_trim_amended.1 docABC "x.html" tSample "A, B ,C" rfl (by decide),
    tags_split_trim_amended.2.1 rDocABC "s" tSample "A, B ,C" rfl⟩

/-! Claim C8. -/

/-- C8 counterexample: the runtime extractor returns the date meta content
verbatim, keeping the time component rather than truncating it to the date
portion; the always-YYYY-MM-DD claim is false on that extractor. -/
theorem runtime_date_keeps_time_component :
    (Rt.parsePostHTML rDocTime "s" tSample).toOption.map (fun p => p.date)
      = some (some "2025-09-23T10:00:00Z")
    ∧ (some "2025-09-23T10:00:00Z" : Option String) ≠ some "2025-09-23" :=
  ⟨rfl, by decide⟩

/-- C8 amended: with a date meta tag carrying content, the offline builder
stores the content truncated at the first T while the runtime parser stores
it verbatim (neither validates the YYYY-MM-DD shape); with no date meta tag
both fall back to a YYYY-MM-DD pattern found in the slug, else to the
current date. -/
theorem date_strategy_amended :
    (∀ (d : Gen.HDoc) (fn now c : String), d.metaDate = some (some c) →
        d.metaKeywords ≠ some none →
        (Gen.extractMetadata d fn now).toOption.map (fun p => p.date)
          = some (jsTakeUntil 'T' c))
    ∧ (∀ (d : Rt.HDoc) (slug now : String) (c : Option String), d.metaDate = some c →
        d.metaKeywords ≠ some none →
        (Rt.parsePostHTML d slug now).toOption.map (fun p => p.date) = some c)
    ∧ (∀ (d : Gen.HDoc) (fn now : String), d.metaDate = none →
        d.metaKeywords ≠ some none →
        (Gen.extractMetadata d fn now).toOption.map (fun p => p.date)
          = some (match findYmd (Gen.basenameHtml fn).data with
                  | some m => m
                  | none => jsTakeUntil 'T' now))
    ∧ (∀ (d : Rt.HDoc) (slug now : String), d.metaDate = none →
        d.metaKeywords ≠ some none →
        (Rt.parsePostHTML d slug now).toOption.map (fun p => p.date)
          = some (some (match findYmd slug.data with
                        | some m => m
                        | none => jsTakeUntil 'T' now))) := by
  refine ⟨?_, ?_, ?_, ?_⟩
  · intro d fn now c hmd h2
    have h1 : d.metaDate ≠ some none := by rw [hmd]; simp
    obtain ⟨dv, tv, hdv, _, hok⟩ := extractMetadata_ok h1 h2
    rw [hmd] at hdv
    unfold Gen.dateOf at hdv
    cases hdv
    rw [hok]
    rfl
  · intro d slug now c hmd h
    obtain ⟨tv, _, hok⟩ := parsePostHTML_ok h
    rw [hok]
    simp only [Except.toOption, Option.map]
    unfold Rt.extractDate
    rw [hmd]
  · intro d fn now hmd h2
    have h1 : d.metaDate ≠ some none := by rw [hmd]; simp
    obtain ⟨dv, tv, hdv, _, hok⟩ := extractMetadata_ok h1 h2
    rw [hmd] at hdv
    unfold Gen.dateOf at hdv
    rw [hok]
    simp only [Except.toOption, Option.map]
    cases hf : findYmd (Gen.basenameHtml fn).data with
    | none => rw [hf] at hdv; cases hdv; rfl
    | some m => rw [hf] at hdv; cases hdv; rfl
  · intro d slug now hmd h
    obtain ⟨tv, _, hok⟩ := parsePostHTML_ok h
    rw [hok]
    simp only [Except.toOption, Option.map]
    unfold Rt.extractDate
    rw [hmd]
    cases hf : findYmd slug.data with
    | none => rfl
    | some m => rfl

/-- C8 witness: the amended theorem at concrete documents for each
strategy branch of each builder. -/
theorem date_strategy_amended_witness :
    ((Gen.extractMetadata docD23 "x.html" tSample).toOption.map (fun p => p.date)
        = some (jsTakeUntil 'T' "2025-09-23"))
    ∧ ((Rt.parsePostHTML rDocTime "s" tSample).toOption.map (fun p => p.date)
        = some (some "2025-09-23T10:00:00Z"))
    ∧ ((Gen.extractMetadata docEmpty "2025-05-05-hello.html" tSample).toOption.map (fun p => p.date)
        = some (match findYmd (Gen.basenameHtml "2025-05-05-hello.html").data with
                | some m => m
                | none => jsTakeUntil 'T' tSample))
    ∧ ((Rt.parsePostHTML rDocEmpty "2025-05-05-hello" tSample).toOption.map (fun p => p.date)
        = some (some (match findYmd ("2025-05-05-hello" : String).data with
                      | some m => m
                      | none => jsTakeUntil 'T' tSample))) :=
  ⟨date_strategy_amended.1 docD23 "x.html" tSample "2025-09-23" rfl (by decide),
    date_strategy_amended.2.1 rDocTime "s" tSample (some "2025-09-23T10:00:00Z") rfl (by decide),
    date_strategy_amended.2.2.1 docEmpty "2025-05-05-hello.html" tSample rfl (by decide),
    date_strategy_amended.2.2.2 rDocEmpty "2025-05-05-hello" tSample rfl (by decide)⟩

/-! Claim C4. -/

/-- Record with its per-run modification timestamp cleared. -/
def scrubPost (p : Gen.PostRecord) : Gen.PostRecord := { p with lastModified := "" }

/-- Artifact with the generation timestamp and the per-record modification
timestamps cleared. -/
def scrubIndex (x : Gen.IndexData) : Gen.IndexData :=
  { x with generated := "", posts := x.posts.map scrubPost }

/-- C4 counterexample: two runs of the indexer on the same single document
at different clock values differ in the posts sequence itself (each record
embeds a lastModified timestamp), not only in the top-level generated
field; the claim is false on the code. -/
theorem artifact_posts_differ_across_runs :
    (Gen.generatePostsIndex [("a.html", docD20)] "2025-01-01T00:00:00.000Z").posts
      ≠ (Gen.generatePostsIndex [("a.html", docD20)] "2025-01-01T00:00:01.000Z").posts := by
  decide

theorem extractMetadata_map_scrub (d : Gen.HDoc) (fn t1 t2 : String)
    (h : jsTakeUntil 'T' t1 = jsTakeUntil 'T' t2) :
    (Gen.extractMetadata d fn t1).toOption.map scrubPost
      = (Gen.extractMetadata d fn t2).toOption.map scrubPost := by
  simp only [Gen.extractMetadata]
  rw [h]
  cases hdv : Gen.dateOf d.metaDate (Gen.basenameHtml fn) (jsTakeUntil 'T' t2) with
  | error e => simp [Except.bind]
  | ok dv =>
    cases htv : Gen.tagsOf d.metaKeywords d.tagEls with
    | error e => simp [Except.bind]
    | ok tv => simp [Except.bind, Except.toOption, scrubPost]

theorem indexRecords_map_scrub (files : List (String × Gen.HDoc)) (t1 t2 : String)
    (h : jsTakeUntil 'T' t1 = jsTakeUntil 'T' t2) :
    (Gen.indexRecords files t1).map scrubPost
      = (Gen.indexRecords files t2).map scrubPost := by
  unfold Gen.indexRecords
  rw [List.map_filterMap, List.map_filterMap]
  have hfun : (fun f : String × Gen.HDoc =>
        ((Gen.extractMetadata f.2 f.1 t1).toOption).map scrubPost)
      = (fun f : String × Gen.HDoc =>
        ((Gen.extractMetadata f.2 f.1 t2).toOption).map scrubPost) :=
    funext (fun f => extractMetadata_map_scrub f.2 f.1 t1 t2 h)
  rw [hfun]

theorem sortedRecords_map_scrub (files : List (String × Gen.HDoc)) (t1 t2 : String)
    (h : jsTakeUntil 'T' t1 = jsTakeUntil 'T' t2) :
    (Gen.sortedRecords files t1).map scrubPost
      = (Gen.sortedRecords files t2).map scrubPost := by
  unfold Gen.sortedRecords
  rw [← stableSort_map scrubPost Gen.dateDescLe Gen.dateDescLe (fun a b => rfl),
    ← stableSort_map scrubPost Gen.dateDescLe Gen.dateDescLe (fun a b => rfl),
    indexRecords_map_scrub files t1 t2 h]

theorem map_eq_of_scrub {β : Type} (g : Gen.PostRecord → β)
    (hg : ∀ p, g (scrubPost p) = g p) {l1 l2 : List Gen.PostRecord}
    (h : l1.map scrubPost = l2.map scrubPost) : l1.map g = l2.map g := by
  have h2 := congrArg (List.map g) h
  rw [List.map_map, List.map_map] at h2
  have hc : g ∘ scrubPost = g := funext hg
  rw [hc] at h2
  exact h2

theorem filter_len_eq_of_scrub (q : Gen.PostRecord → Bool)
    (hq : ∀ p, q (scrubPost p) = q p) {l1 l2 : List Gen.PostRecord}
    (h : l1.map scrubPost = l2.map scrubPost) :
    (l1.filter q).length = (l2.filter q).length := by
  have h2 := congrArg (fun l => (List.filter q l).length) h
  simp only [List.filter_map, List.length_map] at h2
  have hc : q ∘ scrubPost = q := funext hq
  rw [hc] at h2
  exact h2

/-- C4 amended: two runs of the indexer on an unchanged document set
whose clock values share the calendar date produce artifacts identical in
every field except the top-level generated timestamp and each record's
lastModified timestamp. -/
theorem artifact_run_twice_eq_mod_timestamps (files : List (String × Gen.HDoc))
    (t1 t2 : String) (h : jsTakeUntil 'T' t1 = jsTakeUntil 'T' t2) :
    scrubIndex (Gen.generatePostsIndex files t1)
      = scrubIndex (Gen.generatePostsIndex files t2) := by
  have hrec := indexRecords_map_scrub files t1 t2 h
  have hsort := sortedRecords_map_scrub files t1 t2 h
  have hlen : (Gen.sortedRecords files t1).length = (Gen.sortedRecords files t2).length := by
    have h2 := congrArg List.length hsort
    simpa using h2
  have hcats : Gen.catNames files t1 = Gen.catNames files t2 := by
    unfold Gen.catNames
    rw [map_eq_of_scrub (fun p => p.category) (fun p => rfl) hrec]
  have htags : Gen.tagNames files t1 = Gen.tagNames files t2 := by
    unfold Gen.tagNames
    rw [map_eq_of_scrub (fun p => p.tags) (fun p => rfl) hrec]
  have hccount : ∀ c, Gen.countCat (Gen.sortedRecords files t1) c
      = Gen.countCat (Gen.sortedRecords files t2) c := by
    intro c
    exact filter_len_eq_of_scrub (fun p => p.category == c) (fun p => rfl) hsort
  have htcount : ∀ t, Gen.countTag (Gen.sortedRecords files t1) t
      = Gen.countTag (Gen.sortedRecords files t2) t := by
    intro t
    exact filter_len_eq_of_scrub (fun p => p.tags.contains t) (fun p => rfl) hsort
  have hwords : (Gen.sortedRecords files t1).map (fun p => p.wordCount)
      = (Gen.sortedRecords files t2).map (fun p => p.wordCount) :=
    map_eq_of_scrub (fun p => p.wordCount) (fun p => rfl) hsort
  have hread : (Gen.sortedRecords files t1).map (fun p => parseLeadingNat p.readTime)
      = (Gen.sortedRecords files t2).map (fun p => parseLeadingNat p.readTime) :=
    map_eq_of_scrub (fun p => parseLeadingNat p.readTime) (fun p => rfl) hsort
  have hdates : (Gen.sortedRecords files t1).map (fun p => p.date)
      = (Gen.sortedRecords files t2).map (fun p => p.date) :=
    map_eq_of_scrub (fun p => p.date) (fun p => rfl) hsort
  have hemp : (Gen.sortedRecords files t1).isEmpty = (Gen.sortedRecords files t2).isEmpty := by
    cases h1 : Gen.sortedRecords files t1 with
    | nil =>
      cases h2 : Gen.sortedRecords files t2 with
      | nil => rfl
      | cons b bs => rw [h1, h2] at hlen; simp at hlen
    | cons a as =>
      cases h2 : Gen.sortedRecords files t2 with
      | nil => rw [h1, h2] at hlen; simp at hlen
      | cons b bs => rfl
  have hhead : (Gen.sortedRecords files t1).head?.map (fun p => p.date)
      = (Gen.sortedRecords files t2).head?.map (fun p => p.date) := by
    have h2 := congrArg List.head? hdates
    rw [List.head?_map, List.head?_map] at h2
    exact h2
  have hlast : (Gen.sortedRecords files t1).getLast?.map (fun p => p.date)
      = (Gen.sortedRecords files t2).getLast?.map (fun p => p.date) := by
    have h2 := congrArg List.getLast? hdates
    rw [List.getLast?_map, List.getLast?_map] at h2
    exact h2
  simp only [Gen.generatePostsIndex, scrubIndex, Gen.IndexData.mk.injEq]
  refine ⟨trivial, hlen, hsort, ?_, ?_, ?_⟩
  · rw [hcats]
    have hfun : (fun c => Gen.CatEntry.mk c (Gen.countCat (Gen.sortedRecords files t1) c)
          ("Posts about " ++ optShow c))
        = (fun c => Gen.CatEntry.mk c (Gen.countCat (Gen.sortedRecords files t2) c)
          ("Posts about " ++ optShow c)) :=
      funext (fun c => by rw [hccount c])
    rw [hfun]
  · rw [htags]
    have hfun : (fun t => Gen.TagEntry.mk t (Gen.countTag (Gen.sortedRecords files t1) t))
        = (fun t => Gen.TagEntry.mk t (Gen.countTag (Gen.sortedRecords files t2) t)) :=
      funext (fun t => by rw [htcount t])
    rw [hfun]
  · simp only [Gen.Stats.mk.injEq]
    refine ⟨?_, ?_, hhead, hlast⟩
    · rw [hwords]
    · rw [hemp, hread, hlen]

/-- C4 witness: the amended theorem at two same-day clock values on a
concrete document. -/
theorem artifact_run_twice_eq_mod_timestamps_witness :
    jsTakeUntil 'T' "2025-01-01T00:00:00.000Z" = jsTakeUntil 'T' "2025-01-01T00:00:01.000Z"
    ∧ scrubIndex (Gen.generatePostsIndex [("a.html", docD20)] "2025-01-01T00:00:00.000Z")
        = scrubIndex (Gen.generatePostsIndex [("a.html", docD20)] "2025-01-01T00:00:01.000Z") :=
  ⟨by decide,
    artifact_run_twice_eq_mod_timestamps [("a.html", docD20)]
      "2025-01-01T00:00:00.000Z" "2025-01-01T00:00:01.000Z" (by decide)⟩

/-- C10 witness: the theorem at a record tagged X twice, whose count for
X is one. -/
theorem artifact_tag_counts_membership_witness :
    ((⟨"X", 1⟩ : Gen.TagEntry) ∈ (Gen.generatePostsIndex [("a.html", docXX)] tSample).tags)
    ∧ ((⟨"X", 1⟩ : Gen.TagEntry).count
        = ((Gen.generatePostsIndex [("a.html", docXX)] tSample).posts.filter
            (fun p => p.tags.contains (⟨"X", 1⟩ : Gen.TagEntry).name)).length)
    ∧ ((Gen.generatePostsIndex [("a.html", docXX)] tSample).posts.map (fun p => p.tags)
        = [["X", "X"]]) :=
  ⟨by decide,
    artifact_tag_counts_membership [("a.html", docXX)] tSample ⟨"X", 1⟩ (by decide),
    by decide⟩

end Blog
